import Mathlib

/-!
Verification of the object-store storage engine (Rust, `src/services/storage_service.rs`
and `src/errors.rs`) against its natural-language specification.

Modelling conventions:
* Rust `String`/`&str` values are modelled as byte lists (`ByteStr := List Nat`,
  every element intended `< 256`); Rust compares, slices and measures keys in
  bytes, and SQLite's default BINARY collation orders TEXT by bytes, so this is
  the faithful granularity.
* SQLite queries are modelled as pure functions over an in-memory table
  (`DB`): the engine's `WHERE` clauses become filters, `ORDER BY key ASC`
  becomes an insertion sort by byte order, `LIMIT` becomes `List.take`, and
  `LIKE` is modelled with SQLite's default semantics (ASCII-case-insensitive,
  `%`/`_` wildcards).
* Fallible I/O and database faults are injected through explicit environment
  records; the filesystem is a set of directory paths and file paths.
* The MD5 digest used for etags and for shard selection is abstracted as a
  parameter of the path planner (`Planner.shardFn`, `Planner.md5hex`): no claim
  under scrutiny depends on the actual digest values.
-/

/-- Bytes of a UTF-8 string: a list of naturals, each intended below 256. -/
abbrev ByteStr := List Nat

/-- UTF-8 encoding of one character, byte by byte. -/
def charBytes (c : Char) : List Nat :=
  let n := c.toNat
  if n < 0x80 then [n]
  else if n < 0x800 then [0xC0 ||| (n >>> 6), 0x80 ||| (n &&& 0x3F)]
  else if n < 0x10000 then
    [0xE0 ||| (n >>> 12), 0x80 ||| ((n >>> 6) &&& 0x3F), 0x80 ||| (n &&& 0x3F)]
  else
    [0xF0 ||| (n >>> 18), 0x80 ||| ((n >>> 12) &&& 0x3F),
     0x80 ||| ((n >>> 6) &&& 0x3F), 0x80 ||| (n &&& 0x3F)]

/-- UTF-8 bytes of a string literal (used to write concrete test inputs). -/
def strBytes (s : String) : ByteStr := s.data.flatMap charBytes

/-- Strict lexicographic order on byte strings: Rust `str` comparison and
SQLite BINARY collation (`key > cursor`, `ORDER BY key ASC`). -/
def byteLt : ByteStr → ByteStr → Bool
  | [], [] => false
  | [], _ :: _ => true
  | _ :: _, [] => false
  | a :: as, b :: bs => a < b || (a == b && byteLt as bs)

/-- First byte index at which `needle` occurs inside the second argument;
Rust `str::find` for string patterns (`find("")` is `some 0`). -/
def findSub (needle : ByteStr) : ByteStr → Option Nat
  | [] => if needle.isEmpty then some 0 else none
  | c :: rest =>
    if needle.isPrefixOf (c :: rest) then some 0
    else (findSub needle rest).map (· + 1)

/-- Rust `str::contains` for string patterns. -/
def containsSub (haystack needle : ByteStr) : Bool := (findSub needle haystack).isSome

/-- Lower-case an ASCII letter byte; other bytes unchanged (SQLite `LIKE`
is case-insensitive exactly on the ASCII range by default). -/
def likeLower (b : Nat) : Nat := if 65 ≤ b && b ≤ 90 then b + 32 else b

/-- Does `f` hold of some suffix (the whole list included)? -/
def anySuffix (f : ByteStr → Bool) : ByteStr → Bool
  | [] => f []
  | c :: s2 => f (c :: s2) || anySuffix f s2

/-- SQLite default `LIKE` matching: `%` matches any run of bytes, `_` matches
one byte, every other byte matches ASCII-case-insensitively. The engine's
list query binds the pattern `<prefix>%`. -/
def likeMatch : ByteStr → ByteStr → Bool
  | [], s => s.isEmpty
  | 37 :: ps, s => anySuffix (likeMatch ps) s
  | 95 :: ps, s =>
    (match s with
     | [] => false
     | _ :: s2 => likeMatch ps s2)
  | p :: ps, s =>
    (match s with
     | [] => false
     | c :: s2 => (likeLower p == likeLower c) && likeMatch ps s2)

/-- Rust `usize::clamp`. -/
def clampNat (x lo hi : Nat) : Nat := if x < lo then lo else if x > hi then hi else x

/-- Rust `char::is_whitespace` restricted to single-byte (ASCII) characters:
space and the five control whitespace characters. -/
def isWsByte (b : Nat) : Bool := b == 32 || (9 ≤ b && b ≤ 13)

/-- Rust `str::trim`, at byte granularity. -/
def trimBytes (s : ByteStr) : ByteStr :=
  ((s.dropWhile isWsByte).reverse.dropWhile isWsByte).reverse

/-- Rust `str::split(sep)` for a one-byte separator: the pieces between
separators, empty pieces included. -/
def splitOnByte (sep : Nat) : ByteStr → List ByteStr
  | [] => [[]]
  | b :: rest =>
    let r := splitOnByte sep rest
    if b == sep then [] :: r
    else
      match r with
      | [] => [[b]]
      | h :: t => (b :: h) :: t

/-- Decimal value of an all-digit byte string. -/
def digitsVal (s : ByteStr) : Nat := s.foldl (fun acc b => acc * 10 + (b - 48)) 0

/-! ## Error taxonomy (`StorageError` in `storage_service.rs`) -/

/-- The sqlx error kinds the engine distinguishes. -/
inductive SqlxErr where
  | rowNotFound
  | database (msg : ByteStr)
  | other (code : Nat)
deriving DecidableEq, Repr

/-- I/O error kinds the engine inspects (`std::io::ErrorKind`). -/
inductive IoErrKind where
  | notFound
  | alreadyExists
  | directoryNotEmpty
  | permissionDenied
  | otherKind
deriving DecidableEq, Repr

/-- An I/O error: its kind plus an opaque payload distinguishing instances. -/
structure IoErr where
  kind : IoErrKind
  code : Nat
deriving DecidableEq, Repr

/-- `StorageError` from `storage_service.rs`. -/
inductive StorageError where
  | bucketNotFound (name : ByteStr)
  | bucketAlreadyExists (name : ByteStr)
  | invalidBucketName (name : ByteStr) (reason : ByteStr)
  | unsupportedRegion (region : ByteStr)
  | objectNotFound (bucket : ByteStr) (key : ByteStr)
  | invalidObjectKey
  | sqlx (e : SqlxErr)
  | io (e : IoErr)
deriving DecidableEq, Repr

/-! ## Naming and validation -/

/-- `MAX_OBJECT_KEY_LEN` from the source. -/
def MAX_OBJECT_KEY_LEN : Nat := 1024

/-- `BUCKET_NAME_MIN_LEN` from the source. -/
def BUCKET_NAME_MIN_LEN : Nat := 3

/-- `BUCKET_NAME_MAX_LEN` from the source. -/
def BUCKET_NAME_MAX_LEN : Nat := 63

/-- Rust `u8::is_ascii_control`. -/
def isAsciiControlByte (b : Nat) : Bool := b < 0x20 || b == 0x7F

/-- `StorageService::ensure_key_safe`: reject empty keys, keys above 1024
bytes, keys starting with `/` or containing `..`, and keys with an ASCII
control, backslash, or NUL byte. -/
def ensure_key_safe (key : ByteStr) : Except StorageError Unit :=
  if key.isEmpty then .error .invalidObjectKey
  else if key.length > MAX_OBJECT_KEY_LEN then .error .invalidObjectKey
  else if (strBytes "/").isPrefixOf key || containsSub key (strBytes "..") then
    .error .invalidObjectKey
  else if key.any (fun b => isAsciiControlByte b || b == 92 || b == 0) then
    .error .invalidObjectKey
  else .ok ()

/-- Allowed bucket-name characters: lowercase `a`–`z`, `0`–`9`, `.`, `-`. -/
def isBucketChar (b : Nat) : Bool :=
  (97 ≤ b && b ≤ 122) || (48 ≤ b && b ≤ 57) || b == 46 || b == 45

/-- All-digit segment of one to three bytes whose decimal value fits a `u8`:
one leg of `is_ipv4_like`. -/
def ipv4Segment (seg : ByteStr) : Bool :=
  !seg.isEmpty && seg.length ≤ 3 &&
    seg.all (fun b => 48 ≤ b && b ≤ 57) && digitsVal seg ≤ 255

/-- `is_ipv4_like` from the source: exactly four dot-separated segments, each
non-empty, at most three bytes, all digits, parsing as a `u8`. -/
def is_ipv4_like (name : ByteStr) : Bool :=
  let parts := splitOnByte 46 name
  parts.length == 4 && parts.all ipv4Segment

/-- `StorageService::ensure_bucket_name_safe`, check for check in source
order.  The reason strings reproduce the source messages. -/
def ensure_bucket_name_safe (name : ByteStr) : Except StorageError Unit :=
  if trimBytes name ≠ name then
    .error (.invalidBucketName name (strBytes "cannot begin or end with whitespace"))
  else if name.length < BUCKET_NAME_MIN_LEN || name.length > BUCKET_NAME_MAX_LEN then
    .error (.invalidBucketName name (strBytes "must be between 3 and 63 characters"))
  else if !(name.all isBucketChar) then
    .error (.invalidBucketName name
      (strBytes "allowed characters are lowercase letters, digits, dots, and hyphens"))
  else if (strBytes ".").isPrefixOf name || (strBytes ".").isPrefixOf name.reverse
      || (strBytes "-").isPrefixOf name || (strBytes "-").isPrefixOf name.reverse then
    .error (.invalidBucketName name
      (strBytes "must start and end with a lowercase letter or digit"))
  else if containsSub name (strBytes "..") || containsSub name (strBytes "-.")
      || containsSub name (strBytes ".-") then
    .error (.invalidBucketName name
      (strBytes "cannot contain consecutive dots or dot-hyphen combinations"))
  else if is_ipv4_like name then
    .error (.invalidBucketName name (strBytes "must not be formatted like an IP address"))
  else .ok ()

/-! ## Metadata rows and the in-memory database -/

/-- One row of the `objects` table (`models/object.rs`).  UUIDs and
timestamps are opaque naturals. -/
structure ObjRow where
  id : Nat
  bucketId : Nat
  key : ByteStr
  filename : ByteStr
  contentType : Option ByteStr
  sizeBytes : Int
  etag : Option ByteStr
  storageClass : ByteStr
  lastModified : Nat
  versionId : Option ByteStr
  isDeleted : Bool
deriving DecidableEq, Repr

/-- One row of the `buckets` table (`models/bucket.rs`). -/
structure BucketRow where
  id : Nat
  name : ByteStr
  ownerId : Nat
  region : ByteStr
  createdAt : Nat
  versioningEnabled : Bool
deriving DecidableEq, Repr

/-- The metadata store: both tables. -/
structure DB where
  buckets : List BucketRow
  objects : List ObjRow
deriving DecidableEq, Repr

/-- `StorageService::fetch_bucket`: validate the name, then
`SELECT ... FROM buckets WHERE name = ?`, turning `RowNotFound` into
`BucketNotFound`. -/
def fetch_bucket (db : DB) (bucket : ByteStr) : Except StorageError BucketRow :=
  match ensure_bucket_name_safe bucket with
  | .error e => .error e
  | .ok _ =>
    match db.buckets.find? (fun b => b.name == bucket) with
    | some b => .ok b
    | none => .error (.bucketNotFound bucket)

/-- `StorageService::fetch_object`: `SELECT ... WHERE key = ? AND
bucket_id = ? AND is_deleted = 0`, turning `RowNotFound` into
`ObjectNotFound` carrying the bucket row's name. -/
def fetch_object (db : DB) (bucketRec : BucketRow) (key : ByteStr) :
    Except StorageError ObjRow :=
  match db.objects.find? (fun r =>
      r.key == key && r.bucketId == bucketRec.id && r.isDeleted == false) with
  | some o => .ok o
  | none => .error (.objectNotFound bucketRec.name key)

/-! ## ListObjectsV2 -/

/-- `ListObjectsParams`; the source field `prefix` is called `pfx` here. -/
structure ListObjectsParams where
  pfx : Option ByteStr
  delimiter : Option ByteStr
  continuation_token : Option ByteStr
  start_after : Option ByteStr
  max_keys : Nat
deriving DecidableEq, Repr

/-- `ListObjectsResult`. -/
structure ListObjectsResult where
  objects : List ObjRow
  common_prefixes : List ByteStr
  is_truncated : Bool
  next_continuation_token : Option ByteStr
  key_count : Nat
deriving DecidableEq, Repr

/-- `compute_common_prefix` from the source: if the key survives the
requested-prefix strip, and the remainder contains the delimiter, return the
requested prefix joined with the remainder up to and including the first
delimiter occurrence. -/
def computeCommonPfx (key : ByteStr) (requestedPfx : Option ByteStr)
    (delimiter : ByteStr) : Option ByteStr :=
  match
    (match requestedPfx with
     | some p => if p.isPrefixOf key then some (key.drop p.length) else none
     | none => some key) with
  | none => none
  | some afterPfx =>
    match findSub delimiter afterPfx with
    | some pos => some ((requestedPfx.getD []) ++ afterPfx.take (pos + delimiter.length))
    | none => none

/-- Insert a row into a key-ascending list, keeping it ascending. -/
def insertByKey (r : ObjRow) : List ObjRow → List ObjRow
  | [] => [r]
  | x :: xs => if byteLt x.key r.key then x :: insertByKey r xs else r :: x :: xs

/-- `ORDER BY key ASC` over the matched rows. -/
def sortByKey (rows : List ObjRow) : List ObjRow := rows.foldr insertByKey []

/-- `BTreeSet<String>::insert` on the ascending, duplicate-free list that
models the common-prefix set. -/
def insertSortedDistinct (x : ByteStr) : List ByteStr → List ByteStr
  | [] => [x]
  | y :: ys =>
    if byteLt y x then y :: insertSortedDistinct x ys
    else if x == y then y :: ys
    else x :: y :: ys

/-- The per-row loop of `list_objects_v2`: with a delimiter, rows grouped by
`compute_common_prefix` go to the common-prefix set, the rest are emitted in
order. -/
def assembleRows (delim? : Option ByteStr) (pfx? : Option ByteStr) :
    List ObjRow → List ObjRow × List ByteStr
  | [] => ([], [])
  | r :: rest =>
    let acc := assembleRows delim? pfx? rest
    match delim? with
    | some d =>
      match computeCommonPfx r.key pfx? d with
      | some p => (acc.1, insertSortedDistinct p acc.2)
      | none => (r :: acc.1, acc.2)
    | none => (r :: acc.1, acc.2)

/-- `StorageService::list_objects_v2`.  The SQL fetch is the filter over the
`objects` table (bucket, live, optional `LIKE '<prefix>%'`, optional
`key > cursor` where the continuation token takes precedence over
`start_after`), sorted ascending and limited to `max_keys + 1` rows.  When
exactly `max_keys + 1` rows come back, the last is popped and its key becomes
the next continuation token. -/
def list_objects_v2 (db : DB) (bucket : ByteStr) (params : ListObjectsParams) :
    Except StorageError ListObjectsResult :=
  match fetch_bucket db bucket with
  | .error e => .error e
  | .ok bucketRec =>
    let maxKeys := clampNat params.max_keys 1 1000
    let fetchLimit := maxKeys + 1
    let cursor := match params.continuation_token with
      | some t => some t
      | none => params.start_after
    let matched := db.objects.filter (fun r =>
      r.bucketId == bucketRec.id && r.isDeleted == false &&
      (match params.pfx with
       | none => true
       | some p => likeMatch (p ++ [37]) r.key) &&
      (match cursor with
       | none => true
       | some c => byteLt c r.key))
    let rows := (sortByKey matched).take fetchLimit
    let truncated := rows.length == fetchLimit
    let nextTok := if truncated then rows.getLast?.map (fun r => r.key) else none
    let kept := if truncated then rows.dropLast else rows
    let (contents, cps) := assembleRows params.delimiter params.pfx kept
    .ok { objects := contents
          common_prefixes := cps
          is_truncated := truncated
          next_continuation_token := nextTok
          key_count := contents.length + cps.length }

/-- Drive `list_objects_v2` page by page, feeding each page's
`next_continuation_token` into the next call while `is_truncated` holds, and
concatenating the delivered objects; `fuel` bounds the number of pages. -/
def paginateList (db : DB) (bucket : ByteStr) (n : Nat) :
    Nat → Option ByteStr → List ObjRow
  | 0, _ => []
  | fuel + 1, tok =>
    match list_objects_v2 db bucket ⟨none, none, tok, none, n⟩ with
    | .error _ => []
    | .ok r =>
      if r.is_truncated then
        r.objects ++
          (match r.next_continuation_token with
           | some t => paginateList db bucket n fuel (some t)
           | none => [])
      else r.objects

/-- All live keys of a bucket in ascending order: the sequence a single
listing with unbounded `max_keys` would deliver. -/
def liveKeysSorted (db : DB) (bucketId : Nat) : List ByteStr :=
  (sortByKey (db.objects.filter (fun r =>
    r.bucketId == bucketId && r.isDeleted == false))).map (fun r => r.key)

/-! ## Concrete fixtures used by the evaluation theorems -/

/-- A live object row with given id, bucket id and key; remaining fields are
representative constants. -/
def mkRow (i : Nat) (bid : Nat) (k : String) : ObjRow :=
  { id := i, bucketId := bid, key := strBytes k, filename := strBytes k,
    contentType := none, sizeBytes := 5, etag := some (strBytes "0abc"),
    storageClass := strBytes "STANDARD", lastModified := 0, versionId := none,
    isDeleted := false }

/-- A bucket row named `bkt` with id 1. -/
def bktRow : BucketRow :=
  { id := 1, name := strBytes "bkt", ownerId := 0, region := strBytes "local",
    createdAt := 0, versioningEnabled := false }

/-- Bucket `bkt` holding live keys `k1`, `k2`, `k3`. -/
def dbK123 : DB :=
  { buckets := [bktRow],
    objects := [mkRow 1 1 "k1", mkRow 2 1 "k2", mkRow 3 1 "k3"] }

/-- Bucket `bkt` holding the single live key `A/b`. -/
def dbAb : DB :=
  { buckets := [bktRow], objects := [mkRow 1 1 "A/b"] }

/-- Claim C1: with live keys `[k1, k2, k3]` and `max_keys = 2` the engine
delivers `[k1, k2]` but sets the continuation token to `"k3"` — the key of the
dropped `(max_keys + 1)`-th row, not the last-delivered key `"k2"` — and the
follow-up call with that token returns no keys at all (the filter is
`key > token`), so `k3` is never delivered.  This contradicts the claim's
token value and follow-up page. -/
theorem C1_token_is_dropped_row_key :
    (list_objects_v2 dbK123 (strBytes "bkt") ⟨none, none, none, none, 2⟩ =
      .ok { objects := [mkRow 1 1 "k1", mkRow 2 1 "k2"], common_prefixes := [],
            is_truncated := true,
            next_continuation_token := some (strBytes "k3"), key_count := 2 })
    ∧ (list_objects_v2 dbK123 (strBytes "bkt")
          ⟨none, none, some (strBytes "k3"), none, 2⟩ =
        .ok { objects := [], common_prefixes := [], is_truncated := false,
              next_continuation_token := none, key_count := 0 }) := by
  exact ⟨rfl, rfl⟩

/-- Claim C2: concatenating successive pages of size 2 over live keys
`[k1, k2, k3]` yields only `[k1, k2]`, while the full ascending live-key
sequence is `[k1, k2, k3]`: pagination loses the key at each page boundary,
so page concatenation does not equal the unbounded listing. -/
theorem C2_pagination_loses_boundary_key :
    (paginateList dbK123 (strBytes "bkt") 2 10 none).map (fun r => r.key) =
        [strBytes "k1", strBytes "k2"]
    ∧ liveKeysSorted dbK123 1 = [strBytes "k1", strBytes "k2", strBytes "k3"] := by
  exact ⟨rfl, rfl⟩

/-- Bucket `bkt` holding the single live key `ax`. -/
def dbAx : DB := { buckets := [bktRow], objects := [mkRow 1 1 "ax"] }

/-- Claim C3 (counterexample): with requested prefix `a` and delimiter `/`,
the fetched row `A/b` (a case-insensitive `LIKE 'a%'` match that does *not*
start with `a`) is emitted into the returned objects list rather than
skipped, and its key contains the delimiter at byte position
`1 = len(prefix)`. -/
theorem C3_counterexample :
    (list_objects_v2 dbAb (strBytes "bkt")
        ⟨some (strBytes "a"), some (strBytes "/"), none, none, 1000⟩ =
      .ok { objects := [mkRow 1 1 "A/b"], common_prefixes := [],
            is_truncated := false, next_continuation_token := none,
            key_count := 1 })
    ∧ (strBytes "a").isPrefixOf (strBytes "A/b") = false
    ∧ findSub (strBytes "/") ((strBytes "A/b").drop (strBytes "a").length) = some 0 := by
  exact ⟨rfl, rfl, rfl⟩

/-- Every object emitted by the assembly loop under a delimiter failed
`compute_common_prefix`. -/
lemma assembleRows_mem_none (d : ByteStr) (pfx? : Option ByteStr) :
    ∀ rows (o : ObjRow), o ∈ (assembleRows (some d) pfx? rows).1 →
      computeCommonPfx o.key pfx? d = none := by
  intro rows
  induction rows with
  | nil => intro o h; simp [assembleRows] at h
  | cons r rest ih =>
    intro o h
    simp only [assembleRows] at h
    cases hc : computeCommonPfx r.key pfx? d with
    | some p => rw [hc] at h; exact ih o h
    | none =>
      rw [hc] at h
      rcases List.mem_cons.mp h with h1 | h2
      · subst h1; exact hc
      · exact ih o h2

/-- Claim C3 (amended): in `list_objects_v2` with a delimiter supplied, a
fetched row whose key does not start with the requested prefix is *emitted*
into the returned objects list (never grouped); consequently the
no-delimiter guarantee holds only for the emitted keys that do start with
the requested prefix (and for all emitted keys when no prefix is given):
such keys contain no delimiter occurrence at or after `len(prefix)`. -/
theorem C3_amended (db : DB) (bucket : ByteStr) (params : ListObjectsParams)
    (d : ByteStr) (hd : params.delimiter = some d)
    (res : ListObjectsResult)
    (hres : list_objects_v2 db bucket params = .ok res) :
    ∀ o ∈ res.objects,
      (∀ p, params.pfx = some p → p.isPrefixOf o.key = true →
          findSub d (o.key.drop p.length) = none)
      ∧ (params.pfx = none → findSub d o.key = none) := by
  intro o ho
  have hnone : computeCommonPfx o.key params.pfx d = none := by
    cases hfb : fetch_bucket db bucket with
    | error e => simp [list_objects_v2, hfb] at hres
    | ok brec =>
      simp only [list_objects_v2, hfb] at hres
      rw [Except.ok.injEq] at hres
      subst hres
      rw [hd] at ho
      exact assembleRows_mem_none d params.pfx _ o ho
  constructor
  · intro p hp hpre
    rw [hp] at hnone
    simp only [computeCommonPfx, hpre, if_true] at hnone
    cases hf : findSub d (o.key.drop p.length) with
    | none => rfl
    | some pos => rw [hf] at hnone; simp at hnone
  · intro hp
    rw [hp] at hnone
    simp only [computeCommonPfx] at hnone
    cases hf : findSub d o.key with
    | none => rfl
    | some pos => rw [hf] at hnone; simp at hnone

/-- Witness for `C3_amended` at the concrete bucket holding key `ax` with
prefix `a` and delimiter `/`. -/
theorem C3_amended_witness :
    findSub (strBytes "/") ((mkRow 1 1 "ax").key.drop (strBytes "a").length) = none := by
  have h := C3_amended dbAx (strBytes "bkt")
    ⟨some (strBytes "a"), some (strBytes "/"), none, none, 1000⟩
    (strBytes "/") rfl
    { objects := [mkRow 1 1 "ax"], common_prefixes := [], is_truncated := false,
      next_continuation_token := none, key_count := 1 } rfl
  exact (h (mkRow 1 1 "ax") (by simp)).1 (strBytes "a") rfl (by rfl)

/-- `containsSub` (Rust `str::contains`) agrees with the existence of an
occurrence position. -/
lemma findSub_isSome_iff (needle : ByteStr) :
    ∀ s : ByteStr, (findSub needle s).isSome = true ↔
      ∃ i, needle.isPrefixOf (s.drop i) = true := by
  intro s
  induction s with
  | nil =>
    cases needle with
    | nil => exact iff_of_true (by simp [findSub]) ⟨0, by simp [List.isPrefixOf]⟩
    | cons a as =>
      refine iff_of_false (by simp [findSub]) ?_
      rintro ⟨i, hi⟩
      rw [List.drop_nil] at hi
      simp [List.isPrefixOf] at hi
  | cons c rest ih =>
    by_cases hp : needle.isPrefixOf (c :: rest) = true
    · refine iff_of_true (by simp [findSub, hp]) ⟨0, by rw [List.drop_zero]; exact hp⟩
    · have hstep : findSub needle (c :: rest) = (findSub needle rest).map (· + 1) := by
        simp only [findSub, if_neg hp]
      rw [hstep, Option.isSome_map', ih]
      constructor
      · rintro ⟨i, hi⟩
        exact ⟨i + 1, by rw [List.drop_succ_cons]; exact hi⟩
      · rintro ⟨i, hi⟩
        cases i with
        | zero => rw [List.drop_zero] at hi; exact absurd hi hp
        | succ j => rw [List.drop_succ_cons] at hi; exact ⟨j, hi⟩

/-- A one-byte prefix test is a head test. -/
lemma singletonPrefixOf_iff (a : Nat) (s : ByteStr) :
    [a].isPrefixOf s = true ↔ s.head? = some a := by
  cases s with
  | nil => simp [List.isPrefixOf]
  | cons c t =>
    show (a == c && List.isPrefixOf [] t) = true ↔ (c :: t).head? = some a
    constructor
    · intro h
      rw [Bool.and_eq_true] at h
      have : a = c := by simpa using h.1
      simp [this]
    · intro h
      have : c = a := by simpa using h
      simp [List.isPrefixOf, this]

/-- A run of `a` bytes contains no `..`. -/
lemma findSub_dots_replicate (n : Nat) :
    findSub (strBytes "..") (List.replicate n 97) = none := by
  induction n with
  | zero => rfl
  | succ m ih =>
    rw [List.replicate_succ]
    show findSub (strBytes "..") (97 :: List.replicate m 97) = none
    simp only [findSub]
    rw [if_neg (by simp [strBytes, charBytes, List.isPrefixOf]), ih]
    rfl

/-- Claim C4: object-key validation rejects a key with `InvalidObjectKey`
exactly when the key is empty, longer than 1024 bytes, starts with `/`,
contains `..`, or contains an ASCII-control, backslash, or NUL byte; every
other key is accepted, including an otherwise-valid key of exactly 1024
bytes and keys with embedded `/`. -/
theorem C4_key_validation :
    (∀ key : ByteStr,
      ensure_key_safe key = .error .invalidObjectKey ↔
        (key = [] ∨ 1024 < key.length ∨ key.head? = some 47 ∨
         (∃ i, (strBytes "..").isPrefixOf (key.drop i) = true) ∨
         (∃ b ∈ key, b < 32 ∨ b = 127 ∨ b = 92)))
    ∧ ensure_key_safe (List.replicate 1024 97) = .ok ()
    ∧ ensure_key_safe (List.replicate 1025 97) = .error .invalidObjectKey
    ∧ ensure_key_safe (strBytes "a/b") = .ok () := by
  refine ⟨?_, ?_, ?_, by rfl⟩
  · intro key
    unfold ensure_key_safe
    split_ifs with h1 h2 h3 h4
    · simp only [List.isEmpty_iff] at h1
      exact iff_of_true rfl (Or.inl h1)
    · simp only [MAX_OBJECT_KEY_LEN] at h2
      exact iff_of_true rfl (Or.inr (Or.inl h2))
    · rcases Bool.or_eq_true _ _ ▸ h3 with hs | hc
      · exact iff_of_true rfl (Or.inr (Or.inr (Or.inl ((singletonPrefixOf_iff 47 key).mp hs))))
      · exact iff_of_true rfl (Or.inr (Or.inr (Or.inr (Or.inl ((findSub_isSome_iff _ key).mp hc)))))
    · obtain ⟨b, hb, hpb⟩ := List.any_eq_true.mp h4
      have hcls : b < 32 ∨ b = 127 ∨ b = 92 := by
        simp only [isAsciiControlByte, Bool.or_eq_true, decide_eq_true_eq, beq_iff_eq] at hpb
        omega
      exact iff_of_true rfl (Or.inr (Or.inr (Or.inr (Or.inr ⟨b, hb, hcls⟩))))
    · refine iff_of_false (by simp) ?_
      rintro (hk | hk | hk | hk | hk)
      · exact h1 (by simp [hk])
      · exact h2 (by simpa [MAX_OBJECT_KEY_LEN] using hk)
      · exact h3 (Bool.or_eq_true _ _ ▸ Or.inl ((singletonPrefixOf_iff 47 key).mpr hk))
      · exact h3 (Bool.or_eq_true _ _ ▸ Or.inr ((findSub_isSome_iff _ key).mpr hk))
      · obtain ⟨b, hb, hpb⟩ := hk
        refine h4 (List.any_eq_true.mpr ⟨b, hb, ?_⟩)
        simp only [isAsciiControlByte, Bool.or_eq_true, decide_eq_true_eq, beq_iff_eq]
        omega
  · unfold ensure_key_safe
    split_ifs with h1 h2 h3 h4
    · exfalso
      rw [List.isEmpty_iff] at h1
      have hlen := congrArg List.length h1
      rw [List.length_replicate, List.length_nil] at hlen
      exact absurd hlen (by decide)
    · exfalso
      rw [List.length_replicate] at h2
      exact absurd h2 (by decide)
    · exfalso
      rcases Bool.or_eq_true _ _ ▸ h3 with hs | hc
      · have hsf : strBytes "/" = [47] := rfl
        rw [hsf, singletonPrefixOf_iff] at hs
        rw [show (1024 : Nat) = 1023 + 1 from rfl, List.replicate_succ,
          List.head?_cons] at hs
        exact absurd (Option.some.inj hs) (by decide)
      · unfold containsSub at hc
        rw [findSub_dots_replicate] at hc
        exact absurd hc (by decide)
    · exfalso
      obtain ⟨b, hb, hpb⟩ := List.any_eq_true.mp h4
      have hb97 := List.eq_of_mem_replicate hb
      subst hb97
      exact absurd hpb (by decide)
    · rfl
  · unfold ensure_key_safe
    split_ifs with h1 h2 h3 h4 <;> try rfl
    exfalso
    exact h2 (by rw [List.length_replicate]; decide)

/-- `dropWhile` never lengthens a list. -/
lemma length_dropWhile_le (p : Nat → Bool) :
    ∀ l : ByteStr, (l.dropWhile p).length ≤ l.length := by
  intro l
  induction l with
  | nil => simp
  | cons a t ih =>
    rw [List.dropWhile_cons]
    by_cases hp : p a = true
    · rw [if_pos hp]; exact Nat.le_succ_of_le ih
    · rw [if_neg hp]

/-- `dropWhile` is the identity when the head fails the predicate. -/
lemma dropWhile_eq_self_of_head (p : Nat → Bool) (l : ByteStr)
    (h : ∀ b, l.head? = some b → p b = false) : l.dropWhile p = l := by
  cases l with
  | nil => rfl
  | cons a t =>
    have := h a rfl
    rw [List.dropWhile_cons, if_neg (by simp [this])]

/-- `dropWhile` strictly shortens a list whose head satisfies the predicate. -/
lemma length_dropWhile_lt_of_head (p : Nat → Bool) (l : ByteStr) (b : Nat)
    (hb : l.head? = some b) (hp : p b = true) :
    (l.dropWhile p).length < l.length := by
  cases l with
  | nil => exact absurd hb (by simp)
  | cons a t =>
    have hab : a = b := by simpa using hb
    subst hab
    rw [List.dropWhile_cons, if_pos hp]
    exact Nat.lt_succ_of_le (length_dropWhile_le p t)

/-- Trimming is no longer than dropping the leading whitespace alone. -/
lemma trimBytes_length_le (s : ByteStr) : (trimBytes s).length ≤ (s.dropWhile isWsByte).length := by
  unfold trimBytes
  rw [List.length_reverse]
  calc ((s.dropWhile isWsByte).reverse.dropWhile isWsByte).length
      ≤ (s.dropWhile isWsByte).reverse.length := length_dropWhile_le _ _
    _ = (s.dropWhile isWsByte).length := List.length_reverse _

/-- `trim` changes a string exactly when its first or last byte is
whitespace. -/
lemma trimBytes_ne_iff (s : ByteStr) :
    trimBytes s ≠ s ↔
      ((∃ b, s.head? = some b ∧ isWsByte b = true) ∨
       (∃ b, s.getLast? = some b ∧ isWsByte b = true)) := by
  constructor
  · intro hne
    by_contra hcon
    push_neg at hcon
    obtain ⟨hh, hl⟩ := hcon
    apply hne
    have hhf : ∀ b, s.head? = some b → isWsByte b = false := by
      intro b hb
      have := hh b hb
      revert this; cases isWsByte b <;> simp
    have hlf : ∀ b, s.reverse.head? = some b → isWsByte b = false := by
      intro b hb
      rw [List.head?_reverse] at hb
      have := hl b hb
      revert this; cases isWsByte b <;> simp
    unfold trimBytes
    rw [dropWhile_eq_self_of_head _ _ hhf, dropWhile_eq_self_of_head _ _ hlf,
      List.reverse_reverse]
  · intro h heq
    by_cases hcase : ∃ b, s.head? = some b ∧ isWsByte b = true
    · obtain ⟨b, hb, hw⟩ := hcase
      have hlt := length_dropWhile_lt_of_head isWsByte s b hb hw
      have hle := trimBytes_length_le s
      rw [heq] at hle
      omega
    · rcases h with hch | ⟨b, hb, hw⟩
      · exact hcase hch
      · push_neg at hcase
        have hhf : ∀ b2, s.head? = some b2 → isWsByte b2 = false := by
          intro b2 hb2
          have := hcase b2 hb2
          revert this; cases isWsByte b2 <;> simp
        have h1 : s.dropWhile isWsByte = s := dropWhile_eq_self_of_head _ _ hhf
        have hb2 : s.reverse.head? = some b := by rw [List.head?_reverse]; exact hb
        have hlt := length_dropWhile_lt_of_head isWsByte s.reverse b hb2 hw
        have hle : (trimBytes s).length ≤ (s.reverse.dropWhile isWsByte).length := by
          unfold trimBytes
          rw [h1, List.length_reverse]
        rw [List.length_reverse] at hlt
        rw [heq] at hle
        omega

/-- A byte fails the bucket-name character class exactly when it is neither a
lowercase letter, nor a digit, nor `.`, nor `-`. -/
lemma isBucketChar_false_iff (b : Nat) :
    isBucketChar b = false ↔
      ¬(97 ≤ b ∧ b ≤ 122) ∧ ¬(48 ≤ b ∧ b ≤ 57) ∧ b ≠ 46 ∧ b ≠ 45 := by
  rw [← Bool.not_eq_true]
  simp only [isBucketChar, Bool.or_eq_true, Bool.and_eq_true, decide_eq_true_eq,
    beq_iff_eq]
  tauto

/-- Claim C5: bucket-name validation rejects a name with `InvalidBucketName`
exactly when it has leading or trailing whitespace, its length is outside
3–63, it contains a character other than lowercase `a`–`z`, `0`–`9`, `.`,
`-`, it starts or ends with `.` or `-`, it contains `..`, `.-`, or `-.`, or
it is a dotted-quad IPv4 form; in particular `ab`, 64-character names,
`-foo`, `foo-`, `10.0.0.1`, and `foo..bar` are rejected while `foo.bar-baz`
is accepted. -/
theorem C5_bucket_name_validation :
    (∀ name : ByteStr,
      (∃ r, ensure_bucket_name_safe name = .error (.invalidBucketName name r)) ↔
        ((∃ b, name.head? = some b ∧ isWsByte b = true) ∨
         (∃ b, name.getLast? = some b ∧ isWsByte b = true) ∨
         name.length < 3 ∨ 63 < name.length ∨
         (∃ b ∈ name, ¬(97 ≤ b ∧ b ≤ 122) ∧ ¬(48 ≤ b ∧ b ≤ 57) ∧ b ≠ 46 ∧ b ≠ 45) ∨
         name.head? = some 46 ∨ name.getLast? = some 46 ∨
         name.head? = some 45 ∨ name.getLast? = some 45 ∨
         (∃ i, (strBytes "..").isPrefixOf (name.drop i) = true) ∨
         (∃ i, (strBytes "-.").isPrefixOf (name.drop i) = true) ∨
         (∃ i, (strBytes ".-").isPrefixOf (name.drop i) = true) ∨
         is_ipv4_like name = true))
    ∧ ensure_bucket_name_safe (strBytes "ab") =
        .error (.invalidBucketName (strBytes "ab")
          (strBytes "must be between 3 and 63 characters"))
    ∧ ensure_bucket_name_safe (List.replicate 64 97) =
        .error (.invalidBucketName (List.replicate 64 97)
          (strBytes "must be between 3 and 63 characters"))
    ∧ ensure_bucket_name_safe (strBytes "-foo") =
        .error (.invalidBucketName (strBytes "-foo")
          (strBytes "must start and end with a lowercase letter or digit"))
    ∧ ensure_bucket_name_safe (strBytes "foo-") =
        .error (.invalidBucketName (strBytes "foo-")
          (strBytes "must start and end with a lowercase letter or digit"))
    ∧ ensure_bucket_name_safe (strBytes "10.0.0.1") =
        .error (.invalidBucketName (strBytes "10.0.0.1")
          (strBytes "must not be formatted like an IP address"))
    ∧ ensure_bucket_name_safe (strBytes "foo..bar") =
        .error (.invalidBucketName (strBytes "foo..bar")
          (strBytes "cannot contain consecutive dots or dot-hyphen combinations"))
    ∧ ensure_bucket_name_safe (strBytes "foo.bar-baz") = .ok () := by
  refine ⟨?_, by rfl, by rfl, by rfl, by rfl, by rfl, by rfl, by rfl⟩
  intro name
  have hdot : strBytes "." = [46] := rfl
  have hdash : strBytes "-" = [45] := rfl
  unfold ensure_bucket_name_safe
  split_ifs with h1 h2 h3 h4 h5 h6
  · refine iff_of_true ⟨_, rfl⟩ ?_
    rcases (trimBytes_ne_iff name).mp h1 with hx | hx
    · exact Or.inl hx
    · exact Or.inr (Or.inl hx)
  · refine iff_of_true ⟨_, rfl⟩ ?_
    simp only [BUCKET_NAME_MIN_LEN, BUCKET_NAME_MAX_LEN, Bool.or_eq_true,
      decide_eq_true_eq] at h2
    rcases h2 with hx | hx
    · exact Or.inr (Or.inr (Or.inl hx))
    · exact Or.inr (Or.inr (Or.inr (Or.inl hx)))
  · refine iff_of_true ⟨_, rfl⟩ ?_
    rw [Bool.not_eq_true', List.all_eq_false] at h3
    obtain ⟨b, hb, hpb⟩ := h3
    have hpb2 : isBucketChar b = false := by revert hpb; cases isBucketChar b <;> simp
    exact Or.inr (Or.inr (Or.inr (Or.inr (Or.inl
      ⟨b, hb, (isBucketChar_false_iff b).mp hpb2⟩))))
  · refine iff_of_true ⟨_, rfl⟩ ?_
    rw [hdot, hdash] at h4
    rcases Bool.or_eq_true _ _ ▸ h4 with h4a | hx4
    · rcases Bool.or_eq_true _ _ ▸ h4a with h4b | hx3
      · rcases Bool.or_eq_true _ _ ▸ h4b with hx1 | hx2
        · rw [singletonPrefixOf_iff] at hx1
          exact Or.inr (Or.inr (Or.inr (Or.inr (Or.inr (Or.inl hx1)))))
        · rw [singletonPrefixOf_iff, List.head?_reverse] at hx2
          exact Or.inr (Or.inr (Or.inr (Or.inr (Or.inr (Or.inr (Or.inl hx2))))))
      · rw [singletonPrefixOf_iff] at hx3
        exact Or.inr (Or.inr (Or.inr (Or.inr (Or.inr (Or.inr (Or.inr (Or.inl hx3)))))))
    · rw [singletonPrefixOf_iff, List.head?_reverse] at hx4
      exact Or.inr (Or.inr (Or.inr (Or.inr (Or.inr (Or.inr (Or.inr (Or.inr (Or.inl hx4))))))))
  · refine iff_of_true ⟨_, rfl⟩ ?_
    rcases Bool.or_eq_true _ _ ▸ h5 with h5a | hx3
    · rcases Bool.or_eq_true _ _ ▸ h5a with hx1 | hx2
      · exact Or.inr (Or.inr (Or.inr (Or.inr (Or.inr (Or.inr (Or.inr (Or.inr (Or.inr
          (Or.inl ((findSub_isSome_iff _ name).mp hx1))))))))))
      · exact Or.inr (Or.inr (Or.inr (Or.inr (Or.inr (Or.inr (Or.inr (Or.inr (Or.inr
          (Or.inr (Or.inl ((findSub_isSome_iff _ name).mp hx2)))))))))))
    · exact Or.inr (Or.inr (Or.inr (Or.inr (Or.inr (Or.inr (Or.inr (Or.inr (Or.inr
        (Or.inr (Or.inr (Or.inl ((findSub_isSome_iff _ name).mp hx3))))))))))))
  · refine iff_of_true ⟨_, rfl⟩ ?_
    exact Or.inr (Or.inr (Or.inr (Or.inr (Or.inr (Or.inr (Or.inr (Or.inr (Or.inr
      (Or.inr (Or.inr (Or.inr h6)))))))))))
  · refine iff_of_false ?_ ?_
    · rintro ⟨r, hr⟩
      simp at hr
    · rintro (hk | hk | hk | hk | hk | hk | hk | hk | hk | hk | hk | hk | hk)
      · exact h1 ((trimBytes_ne_iff name).mpr (Or.inl hk))
      · exact h1 ((trimBytes_ne_iff name).mpr (Or.inr hk))
      · exact h2 (Bool.or_eq_true _ _ ▸ Or.inl (by
          simp only [BUCKET_NAME_MIN_LEN, decide_eq_true_eq]; exact hk))
      · exact h2 (Bool.or_eq_true _ _ ▸ Or.inr (by
          simp only [BUCKET_NAME_MAX_LEN, decide_eq_true_eq]; exact hk))
      · obtain ⟨b, hb, hnot⟩ := hk
        apply h3
        rw [Bool.not_eq_true', List.all_eq_false]
        exact ⟨b, hb, by rw [(isBucketChar_false_iff b).mpr hnot]; simp⟩
      · exact h4 (by
          rw [hdot, hdash]
          exact Bool.or_eq_true _ _ ▸ Or.inl (Bool.or_eq_true _ _ ▸ Or.inl
            (Bool.or_eq_true _ _ ▸ Or.inl ((singletonPrefixOf_iff 46 name).mpr hk))))
      · exact h4 (by
          rw [hdot, hdash]
          exact Bool.or_eq_true _ _ ▸ Or.inl (Bool.or_eq_true _ _ ▸ Or.inl
            (Bool.or_eq_true _ _ ▸ Or.inr
              ((singletonPrefixOf_iff 46 name.reverse).mpr
                (by rw [List.head?_reverse]; exact hk)))))
      · exact h4 (by
          rw [hdot, hdash]
          exact Bool.or_eq_true _ _ ▸ Or.inl (Bool.or_eq_true _ _ ▸ Or.inr
            ((singletonPrefixOf_iff 45 name).mpr hk)))
      · exact h4 (by
          rw [hdot, hdash]
          exact Bool.or_eq_true _ _ ▸ Or.inr
            ((singletonPrefixOf_iff 45 name.reverse).mpr
              (by rw [List.head?_reverse]; exact hk)))
      · exact h5 (Bool.or_eq_true _ _ ▸ Or.inl (Bool.or_eq_true _ _ ▸ Or.inl
          ((findSub_isSome_iff _ name).mpr hk)))
      · exact h5 (Bool.or_eq_true _ _ ▸ Or.inl (Bool.or_eq_true _ _ ▸ Or.inr
          ((findSub_isSome_iff _ name).mpr hk)))
      · exact h5 (Bool.or_eq_true _ _ ▸ Or.inr ((findSub_isSome_iff _ name).mpr hk))
      · exact h6 hk

/-! ## Error-kind-to-HTTP-status mapping (`errors.rs`) -/

/-- The `From<StorageError> for AppError` conversion in `errors.rs`,
totalised with `Option`: the source `match` has arms only for
`BucketNotFound`/`ObjectNotFound` (404), `BucketAlreadyExists` (409),
`InvalidObjectKey` (400) and `Sqlx`/`Io` (500); it has **no arm** for
`InvalidBucketName` or `UnsupportedRegion` (the match is non-exhaustive),
modelled here as `none`. -/
def storageErrorStatus : StorageError → Option Nat
  | .bucketNotFound _ => some 404
  | .objectNotFound _ _ => some 404
  | .bucketAlreadyExists _ => some 409
  | .invalidObjectKey => some 400
  | .sqlx _ => some 500
  | .io _ => some 500
  | .invalidBucketName _ _ => none
  | .unsupportedRegion _ => none

/-- Claim C8: the error-kind-to-status mapping is *not* total — the source
`match` in `From<StorageError> for AppError` lacks arms for
`InvalidBucketName` and `UnsupportedRegion` (which the claim and §7 of the
spec send to 400); the remaining six kinds map as the claim states. -/
theorem C8_status_mapping_not_total :
    (∀ n, storageErrorStatus (.invalidBucketName n (strBytes "reason")) = none)
    ∧ (∀ r, storageErrorStatus (.unsupportedRegion r) = none)
    ∧ (∀ n, storageErrorStatus (.bucketNotFound n) = some 404)
    ∧ (∀ b k, storageErrorStatus (.objectNotFound b k) = some 404)
    ∧ (∀ n, storageErrorStatus (.bucketAlreadyExists n) = some 409)
    ∧ storageErrorStatus .invalidObjectKey = some 400
    ∧ (∀ e, storageErrorStatus (.sqlx e) = some 500)
    ∧ (∀ e, storageErrorStatus (.io e) = some 500) := by
  exact ⟨fun _ => rfl, fun _ => rfl, fun _ => rfl, fun _ _ => rfl, fun _ => rfl,
    rfl, fun _ => rfl, fun _ => rfl⟩

/-! ## Path planner and filesystem model -/

/-- A filesystem path as its list of components (`std::path::Path`
component-wise). -/
abbrev PathC := List ByteStr

/-- The path planner held by `StorageService`: the base directory plus the
MD5-derived pieces, abstracted as functions (`object_shards` returns the
first two digest bytes in hex; `md5hex` is the streaming-digest etag).  No
claim under scrutiny depends on the concrete digest values, so the claims
are proved for every choice of these functions. -/
structure Planner where
  basePath : PathC
  shardFn : ByteStr → ByteStr → ByteStr × ByteStr
  md5hex : ByteStr → ByteStr

/-- `StorageService::bucket_root`: `base_path` joined with the bucket name. -/
def bucket_root (svc : Planner) (bucketName : ByteStr) : PathC :=
  svc.basePath ++ [bucketName]

/-- Path components contributed by pushing a `/`-separated key onto a
`PathBuf`. -/
def keyComponents (key : ByteStr) : List ByteStr :=
  (splitOnByte 47 key).filter (fun c => !c.isEmpty)

/-- `StorageService::object_path`:
`base / bucket / shard_a / shard_b / key`. -/
def object_path (svc : Planner) (bucketName key : ByteStr) : PathC :=
  bucket_root svc bucketName ++
    [(svc.shardFn bucketName key).1, (svc.shardFn bucketName key).2] ++
    keyComponents key

/-- Filesystem state: the set of directory paths and file paths. -/
structure Fs where
  dirs : List PathC
  files : List PathC
deriving DecidableEq, Repr

/-- Is `q` strictly below `p` (component-wise)? -/
def pathUnder (p q : PathC) : Bool := p.isPrefixOf q && q != p

/-- Does directory `p` contain anything (a directory or file strictly below
it)? -/
def dirNonEmpty (fs : Fs) (p : PathC) : Bool :=
  fs.dirs.any (fun q => pathUnder p q) || fs.files.any (fun f => pathUnder p f)

/-- `tokio::fs::remove_dir`: fails with `NotFound` on a missing directory,
with `DirectoryNotEmpty` on a non-empty one, and otherwise removes it. -/
def removeDir (fs : Fs) (p : PathC) : Fs × Except IoErr Unit :=
  if p ∈ fs.dirs then
    if dirNonEmpty fs p then (fs, .error ⟨.directoryNotEmpty, 0⟩)
    else ({ fs with dirs := fs.dirs.filter (fun q => q ≠ p) }, .ok ())
  else (fs, .error ⟨.notFound, 0⟩)

/-- `tokio::fs::remove_file` with fault injection: `fault` forces an
arbitrary I/O error; otherwise a present file is removed and a missing one
reports `NotFound`. -/
def removeFileOp (fs : Fs) (p : PathC) (fault : Option IoErr) :
    Fs × Except IoErr Unit :=
  match fault with
  | some e => (fs, .error e)
  | none =>
    if p ∈ fs.files then
      ({ fs with files := fs.files.filter (fun q => q ≠ p) }, .ok ())
    else (fs, .error ⟨.notFound, 0⟩)

/-- The loop body of `prune_empty_dirs`, with an explicit step bound.  Each
iteration re-checks `current.starts_with(stop) && current != stop`, calls
`remove_dir`, continues to the parent on success, and stops on any error
(`NotFound`, `DirectoryNotEmpty`, or other).  With `fuel = current.length`
the bound is never hit before the condition fails (the condition is false at
the empty path), so this is exactly the source loop. -/
def pruneLoop (stop : PathC) : Nat → Fs → PathC → Fs
  | 0, fs, _ => fs
  | fuel + 1, fs, current =>
    if stop.isPrefixOf current ∧ current ≠ stop then
      match removeDir fs current with
      | (fs2, .ok _) => pruneLoop stop fuel fs2 current.dropLast
      | (fs2, .error _) => fs2
    else fs

/-- `StorageService::prune_empty_dirs`. -/
def prune_empty_dirs (fs : Fs) (start stop : PathC) : Fs :=
  pruneLoop stop start.length fs start

/-! ## DeleteObject -/

/-- Fault injection for `delete_object`: an error forced on the soft-delete
`UPDATE`, and an error forced on the payload unlink. -/
structure DeleteEnv where
  updateFault : Option SqlxErr
  unlinkFault : Option IoErr
deriving Repr

/-- The `UPDATE objects SET is_deleted = 1 WHERE key = ? AND bucket_id = ?`
statement: the updated table together with the number of affected rows. -/
def softDeleteRows (db : DB) (bucketId : Nat) (key : ByteStr) : DB × Nat :=
  ({ db with
      objects := db.objects.map (fun r =>
        if r.key == key && r.bucketId == bucketId then
          { r with isDeleted := true }
        else r) },
   (db.objects.filter (fun r => r.key == key && r.bucketId == bucketId)).length)

/-- `StorageService::delete_object`: validate the key, resolve the bucket,
fetch the live row, soft-delete it (`ObjectNotFound` when zero rows were
affected), best-effort unlink the payload (`NotFound` is non-fatal; any
other I/O error propagates), prune empty parent directories up to the bucket
root, and return the pre-delete row. -/
def delete_object (svc : Planner) (db : DB) (fs : Fs) (env : DeleteEnv)
    (bucket key : ByteStr) : Except StorageError ObjRow × DB × Fs :=
  match ensure_key_safe key with
  | .error e => (.error e, db, fs)
  | .ok _ =>
  match fetch_bucket db bucket with
  | .error e => (.error e, db, fs)
  | .ok bucketRec =>
  match fetch_object db bucketRec key with
  | .error e => (.error e, db, fs)
  | .ok object =>
  match env.updateFault with
  | some e => (.error (.sqlx e), db, fs)
  | none =>
    let upd := softDeleteRows db bucketRec.id key
    if upd.2 == 0 then (.error (.objectNotFound bucket key), upd.1, fs)
    else
      let filePath := object_path svc bucketRec.name key
      match removeFileOp fs filePath env.unlinkFault with
      | (fs2, .ok _) =>
        (.ok object, upd.1,
         prune_empty_dirs fs2 filePath.dropLast (bucket_root svc bucketRec.name))
      | (fs2, .error e) =>
        if e.kind == IoErrKind.notFound then
          (.ok object, upd.1,
           prune_empty_dirs fs2 filePath.dropLast (bucket_root svc bucketRec.name))
        else (.error (.io e), upd.1, fs2)

/-- A successful `remove_dir` removed an empty directory and left the files
alone. -/
lemma removeDir_ok (fs : Fs) (p : PathC) (fs2 : Fs)
    (h : removeDir fs p = (fs2, .ok ())) :
    dirNonEmpty fs p = false ∧ fs2.dirs = fs.dirs.filter (fun q => q ≠ p)
      ∧ fs2.files = fs.files := by
  unfold removeDir at h
  split_ifs at h with hmem hne
  · exact absurd (congrArg Prod.snd h) (by simp)
  · have hfst := congrArg Prod.fst h
    simp only at hfst
    exact ⟨by revert hne; cases dirNonEmpty fs p <;> simp,
      by rw [← hfst], by rw [← hfst]⟩
  · exact absurd (congrArg Prod.snd h) (by simp)

/-- A failed `remove_dir` left the filesystem untouched. -/
lemma removeDir_error (fs : Fs) (p : PathC) (fs2 : Fs) (e : IoErr)
    (h : removeDir fs p = (fs2, .error e)) : fs2 = fs := by
  unfold removeDir at h
  split_ifs at h with hmem hne
  · exact (congrArg Prod.fst h).symm
  · exact absurd (congrArg Prod.snd h) (by simp)
  · exact (congrArg Prod.fst h).symm

/-- The prune loop never touches files, and preserves every directory that
is not strictly inside `stop` as well as every directory with a file
beneath it. -/
lemma pruneLoop_preserves (stop : PathC) :
    ∀ (fuel : Nat) (fs : Fs) (current : PathC),
      ((pruneLoop stop fuel fs current).files = fs.files) ∧
      (∀ p ∈ fs.dirs,
        (¬(stop <+: p ∧ p ≠ stop) ∨ (∃ f ∈ fs.files, p <+: f ∧ f ≠ p)) →
        p ∈ (pruneLoop stop fuel fs current).dirs) := by
  intro fuel
  induction fuel with
  | zero => intro fs current; exact ⟨rfl, fun p hp _ => hp⟩
  | succ n ih =>
    intro fs current
    by_cases hcond : stop.isPrefixOf current ∧ current ≠ stop
    · rw [show pruneLoop stop (n + 1) fs current =
          (if stop.isPrefixOf current ∧ current ≠ stop then
            match removeDir fs current with
            | (fs2, .ok _) => pruneLoop stop n fs2 current.dropLast
            | (fs2, .error _) => fs2
          else fs) from rfl, if_pos hcond]
      rcases hrd : removeDir fs current with ⟨fs2, out⟩
      cases out with
      | error e =>
        have hfs2 := removeDir_error fs current fs2 e hrd
        subst hfs2
        exact ⟨rfl, fun p hp _ => hp⟩
      | ok u =>
        cases u
        obtain ⟨hne, hdirs, hfiles⟩ := removeDir_ok fs current fs2 hrd
        constructor
        · rw [(ih fs2 current.dropLast).1, hfiles]
        · intro p hp hcase
          have hpne : p ≠ current := by
            intro hpc
            subst hpc
            rcases hcase with hcase | ⟨f, hf, hpf, hfp⟩
            · exact hcase ⟨List.isPrefixOf_iff_prefix.mp hcond.1, hcond.2⟩
            · have : fs.files.any (fun q => pathUnder p q) = true := by
                rw [List.any_eq_true]
                refine ⟨f, hf, ?_⟩
                unfold pathUnder
                rw [Bool.and_eq_true]
                exact ⟨List.isPrefixOf_iff_prefix.mpr hpf, by simpa using hfp⟩
              unfold dirNonEmpty at hne
              rw [Bool.or_eq_false_iff] at hne
              rw [hne.2] at this
              exact Bool.false_ne_true this
          have hp2 : p ∈ fs2.dirs := by
            rw [hdirs, List.mem_filter]
            exact ⟨hp, by simpa using hpne⟩
          refine (ih fs2 current.dropLast).2 p hp2 ?_
          rw [hfiles]
          exact hcase
    · rw [show pruneLoop stop (n + 1) fs current =
          (if stop.isPrefixOf current ∧ current ≠ stop then
            match removeDir fs current with
            | (fs2, .ok _) => pruneLoop stop n fs2 current.dropLast
            | (fs2, .error _) => fs2
          else fs) from rfl, if_neg hcond]
      exact ⟨rfl, fun p hp _ => hp⟩

/-- Unlinking a file never changes the directory set. -/
lemma removeFileOp_dirs (fs : Fs) (p : PathC) (fault : Option IoErr) :
    (removeFileOp fs p fault).1.dirs = fs.dirs := by
  unfold removeFileOp
  cases fault with
  | some e => rfl
  | none => split_ifs <;> rfl

/-- Claim C9: directory pruning removes only empty directories strictly
inside the stop directory — it never touches files, never removes a
directory that is not strictly inside `stop` (so never the stop directory
itself, the base directory, or anything outside), and never removes a
directory with a file beneath it; and in every `delete_object` call, with
`stop` the bucket root, every directory not strictly inside the bucket root
survives, regardless of the starting directory and filesystem contents. -/
theorem C9_prune_only_inside_bucket_root :
    (∀ (fs : Fs) (start stop : PathC),
        (prune_empty_dirs fs start stop).files = fs.files) ∧
    (∀ (fs : Fs) (start stop : PathC) (p : PathC), p ∈ fs.dirs →
        ¬(stop <+: p ∧ p ≠ stop) → p ∈ (prune_empty_dirs fs start stop).dirs) ∧
    (∀ (fs : Fs) (start stop : PathC) (p : PathC), p ∈ fs.dirs →
        (∃ f ∈ fs.files, p <+: f ∧ f ≠ p) →
        p ∈ (prune_empty_dirs fs start stop).dirs) ∧
    (∀ (svc : Planner) (db : DB) (fs : Fs) (env : DeleteEnv)
        (bucket key : ByteStr) (brec : BucketRow),
        fetch_bucket db bucket = .ok brec →
        ∀ p ∈ fs.dirs,
          ¬(bucket_root svc brec.name <+: p ∧ p ≠ bucket_root svc brec.name) →
          p ∈ (delete_object svc db fs env bucket key).2.2.dirs) := by
  refine ⟨?_, ?_, ?_, ?_⟩
  · intro fs start stop
    exact (pruneLoop_preserves stop start.length fs start).1
  · intro fs start stop p hp hout
    exact (pruneLoop_preserves stop start.length fs start).2 p hp (Or.inl hout)
  · intro fs start stop p hp hf
    exact (pruneLoop_preserves stop start.length fs start).2 p hp (Or.inr hf)
  · intro svc db fs env bucket key brec hfb p hp hout
    unfold delete_object
    cases hks : ensure_key_safe key with
    | error e => simpa using hp
    | ok u =>
      cases u
      rw [hfb]
      simp only []
      cases hfo : fetch_object db brec key with
      | error e => simpa using hp
      | ok object =>
        cases huf : env.updateFault with
        | some e => simpa using hp
        | none =>
          simp only []
          split_ifs with hz
          · simpa using hp
          · rcases hrm : removeFileOp fs (object_path svc brec.name key)
                env.unlinkFault with ⟨fs2, out⟩
            have hdirs : fs2.dirs = fs.dirs := by
              have h1 := congrArg (fun x => x.1.dirs) hrm
              simp only [removeFileOp_dirs] at h1
              exact h1.symm
            have hp2 : p ∈ fs2.dirs := by rw [hdirs]; exact hp
            cases out with
            | ok v =>
              cases v
              simp only []
              unfold prune_empty_dirs
              exact (pruneLoop_preserves (bucket_root svc brec.name) _ fs2
                (object_path svc brec.name key).dropLast).2 p hp2 (Or.inl hout)
            | error e =>
              simp only []
              by_cases hkind : (e.kind == IoErrKind.notFound) = true
              · rw [if_pos hkind]
                simp only []
                unfold prune_empty_dirs
                exact (pruneLoop_preserves (bucket_root svc brec.name) _ fs2
                  (object_path svc brec.name key).dropLast).2 p hp2 (Or.inl hout)
              · rw [if_neg hkind]
                simpa using hp2

/-- A small filesystem for the `C9` witness: base directory `data`, bucket
root `data/bkt`, one shard directory beneath it. -/
def fsW : Fs :=
  { dirs := [[strBytes "data"], [strBytes "data", strBytes "bkt"],
             [strBytes "data", strBytes "bkt", strBytes "aa"]],
    files := [] }

/-- Witness for `C9_prune_only_inside_bucket_root`: with stop `data/bkt`,
pruning from the shard directory preserves the base directory `data`. -/
theorem C9_witness :
    [strBytes "data"] ∈
      (prune_empty_dirs fsW
        [strBytes "data", strBytes "bkt", strBytes "aa"]
        [strBytes "data", strBytes "bkt"]).dirs :=
  C9_prune_only_inside_bucket_root.2.1 fsW
    [strBytes "data", strBytes "bkt", strBytes "aa"]
    [strBytes "data", strBytes "bkt"]
    [strBytes "data"] (by decide) (by decide)

/-- A concrete planner for the evaluation theorems (constant shards, fixed
digest). -/
def svc0 : Planner :=
  { basePath := [strBytes "data"],
    shardFn := fun _ _ => (strBytes "aa", strBytes "bb"),
    md5hex := fun _ => strBytes "d41d" }

/-- Claim C6 (counterexample): on bucket `bkt` with live key `ax`, the
soft-delete update succeeds (the returned table shows the row tombstoned),
but the unlink fails with `PermissionDenied` and `delete_object` returns
that I/O error — not the pre-delete row as the claim states. -/
theorem C6_counterexample :
    ((delete_object svc0 dbAx ⟨[], []⟩
        ⟨none, some ⟨IoErrKind.permissionDenied, 7⟩⟩
        (strBytes "bkt") (strBytes "ax")).1 =
      .error (.io ⟨IoErrKind.permissionDenied, 7⟩))
    ∧ ((delete_object svc0 dbAx ⟨[], []⟩
        ⟨none, some ⟨IoErrKind.permissionDenied, 7⟩⟩
        (strBytes "bkt") (strBytes "ax")).2.1.objects =
      [{ mkRow 1 1 "ax" with isDeleted := true }]) := by
  exact ⟨rfl, rfl⟩

/-- Claim C6 (amended): when the soft-delete metadata update succeeds, the
call returns the pre-delete row if the best-effort unlink succeeds or fails
with not-found (only a missing file is non-fatal); an unlink I/O error of
any other kind propagates as the call's error. -/
theorem C6_amended (svc : Planner) (db : DB) (fs : Fs) (env : DeleteEnv)
    (bucket key : ByteStr) (brec : BucketRow) (row : ObjRow)
    (hkey : ensure_key_safe key = .ok ())
    (hbkt : fetch_bucket db bucket = .ok brec)
    (hobj : fetch_object db brec key = .ok row)
    (hupd : env.updateFault = none) :
    ((env.unlinkFault = none ∨
        (∃ e, env.unlinkFault = some e ∧ e.kind = IoErrKind.notFound)) →
      (delete_object svc db fs env bucket key).1 = .ok row)
    ∧ (∀ e, env.unlinkFault = some e → e.kind ≠ IoErrKind.notFound →
        (delete_object svc db fs env bucket key).1 = .error (.io e)) := by
  have hobj2 := hobj
  unfold fetch_object at hobj2
  rcases hfind : db.objects.find? (fun r =>
      r.key == key && r.bucketId == brec.id && r.isDeleted == false) with _ | o
  · rw [hfind] at hobj2; exact absurd hobj2 (by simp)
  · rw [hfind] at hobj2
    have hor : o = row := by
      have := congrArg (fun x => match x with | .ok v => v | .error _ => o) hobj2
      simpa using this
    subst hor
    have hmem : o ∈ db.objects := List.mem_of_find?_eq_some hfind
    have hpred := List.find?_some hfind
    have hpred2 : (o.key == key && o.bucketId == brec.id) = true := by
      rw [Bool.and_eq_true] at hpred
      exact hpred.1
    have hfilmem : o ∈ db.objects.filter (fun r => r.key == key && r.bucketId == brec.id) :=
      List.mem_filter.mpr ⟨hmem, hpred2⟩
    have hzpos : (db.objects.filter (fun r =>
        r.key == key && r.bucketId == brec.id)).length ≠ 0 := by
      have := List.length_pos.mpr (List.ne_nil_of_mem hfilmem)
      omega
    have hznot : ¬(((softDeleteRows db brec.id key).2 == 0) = true) := by
      intro hc
      exact hzpos (by simpa [softDeleteRows] using hc)
    constructor
    · intro hul
      unfold delete_object
      rw [hkey]
      simp only []
      rw [hbkt]
      simp only []
      rw [hobj]
      simp only []
      rw [hupd]
      simp only []
      rw [if_neg hznot]
      rcases hul with hul | ⟨e, hul, hkind⟩
      · rw [hul]
        unfold removeFileOp
        by_cases hmem2 : object_path svc brec.name key ∈ fs.files
        · rw [if_pos hmem2]
        · rw [if_neg hmem2]
          simp only []
          rw [if_pos (by simp)]
      · rw [hul]
        unfold removeFileOp
        simp only []
        rw [if_pos (by simp [hkind])]
    · intro e hul hkind
      unfold delete_object
      rw [hkey]
      simp only []
      rw [hbkt]
      simp only []
      rw [hobj]
      simp only []
      rw [hupd]
      simp only []
      rw [if_neg hznot]
      rw [hul]
      unfold removeFileOp
      simp only []
      rw [if_neg (by simpa using hkind)]

/-- Witness for `C6_amended`: a not-found unlink on bucket `bkt`, key `ax`
still returns the pre-delete row. -/
theorem C6_amended_witness :
    (delete_object svc0 dbAx ⟨[], []⟩ ⟨none, some ⟨IoErrKind.notFound, 0⟩⟩
        (strBytes "bkt") (strBytes "ax")).1 = .ok (mkRow 1 1 "ax") :=
  (C6_amended svc0 dbAx ⟨[], []⟩ ⟨none, some ⟨IoErrKind.notFound, 0⟩⟩
      (strBytes "bkt") (strBytes "ax") bktRow (mkRow 1 1 "ax")
      rfl rfl rfl rfl).1
    (Or.inr ⟨⟨IoErrKind.notFound, 0⟩, rfl, rfl⟩)

/-! ## UploadObject -/

/-- A filesystem operation performed by the upload path (its trace
alphabet). -/
inductive FsOp where
  | createDirAll (p : PathC)
  | createFile (p : PathC)
  | writeChunk (p : PathC) (bytes : ByteStr)
  | flush (p : PathC)
  | syncAll (p : PathC)
  | rename (src dst : PathC)
  | removeFile (p : PathC)
deriving DecidableEq, Repr

/-- Fault injection and nondeterministic inputs for
`upload_object_stream`: the random temp-file name and row id, the clock,
and an optional error for each fallible filesystem or database call
(`writeFaults` and `renameFaults` are consumed call by call). -/
structure UploadEnv where
  tmpName : ByteStr
  newId : Nat
  now : Nat
  createDirFault : Option IoErr
  createFault : Option IoErr
  writeFaults : List (Option IoErr)
  flushFault : Option IoErr
  syncFault : Option IoErr
  renameFaults : List (Option IoErr)
  removeFinalFault : Option IoErr
  upsertFault : Option SqlxErr
  fetchBucketFault : Option SqlxErr

/-- `StorageService::fetch_bucket` with an injectable database failure (a
`fetch_one` error other than `RowNotFound`): validate the name, then query
by name. -/
def fetch_bucket_f (db : DB) (bucket : ByteStr) (fault : Option SqlxErr) :
    Except StorageError BucketRow :=
  match ensure_bucket_name_safe bucket with
  | .error e => .error e
  | .ok _ =>
    match fault with
    | some e => .error (.sqlx e)
    | none =>
      match db.buckets.find? (fun b => b.name == bucket) with
      | some b => .ok b
      | none => .error (.bucketNotFound bucket)

/-- `key.split('/').last().unwrap_or(key)`. -/
def lastSegment (key : ByteStr) : ByteStr := (splitOnByte 47 key).getLastD key

/-- The upload streaming loop: consume chunks, accumulating the byte count
and the digested bytes, writing each chunk to the temp file; on a stream
error or write error, unlink the temp file and fail. -/
def uploadStreamPhase (tmpPath : PathC) :
    List (Except IoErr ByteStr) → List (Option IoErr) → Int → ByteStr →
    List FsOp → List FsOp × Except IoErr (Int × ByteStr)
  | [], _, size, dig, tr => (tr, .ok (size, dig))
  | .error e :: _, _, _, _, tr => (tr ++ [.removeFile tmpPath], .error e)
  | .ok chunk :: rest, wf, size, dig, tr =>
    match wf.headD none with
    | some e => (tr ++ [.writeChunk tmpPath chunk, .removeFile tmpPath], .error e)
    | none =>
      uploadStreamPhase tmpPath rest wf.tail (size + chunk.length) (dig ++ chunk)
        (tr ++ [.writeChunk tmpPath chunk])

/-- The installation phase of `upload_object_stream`: everything from
`create_dir_all` through the atomic rename (with its
already-exists/unlink/retry branch), returning the trace of filesystem
operations and, on success, the accumulated size and digested bytes. -/
def uploadInstallPhase (svc : Planner) (env : UploadEnv) (bucketName key : ByteStr)
    (stream : List (Except IoErr ByteStr)) :
    List FsOp × Except StorageError (Int × ByteStr) :=
  let filePath := object_path svc bucketName key
  let parent := filePath.dropLast
  match env.createDirFault with
  | some e => ([.createDirAll parent], .error (.io e))
  | none =>
    let tmpPath := parent ++ [env.tmpName]
    match env.createFault with
    | some e => ([.createDirAll parent, .createFile tmpPath], .error (.io e))
    | none =>
      match uploadStreamPhase tmpPath stream env.writeFaults 0 []
          [.createDirAll parent, .createFile tmpPath] with
      | (tr, .error e) => (tr, .error (.io e))
      | (tr, .ok (size, dig)) =>
        match env.flushFault with
        | some e => (tr ++ [.flush tmpPath, .removeFile tmpPath], .error (.io e))
        | none =>
          let tr2 := tr ++ [.flush tmpPath]
          match env.syncFault with
          | some e => (tr2 ++ [.syncAll tmpPath, .removeFile tmpPath], .error (.io e))
          | none =>
            let tr3 := tr2 ++ [.syncAll tmpPath]
            match env.renameFaults.headD none with
            | none => (tr3 ++ [.rename tmpPath filePath], .ok (size, dig))
            | some e =>
              if e.kind == IoErrKind.alreadyExists then
                match env.removeFinalFault with
                | some e2 =>
                  (tr3 ++ [.rename tmpPath filePath, .removeFile filePath],
                   .error (.io e2))
                | none =>
                  match (env.renameFaults.drop 1).headD none with
                  | some e3 =>
                    (tr3 ++ [.rename tmpPath filePath, .removeFile filePath,
                             .rename tmpPath filePath],
                     .error (.io e3))
                  | none =>
                    (tr3 ++ [.rename tmpPath filePath, .removeFile filePath,
                             .rename tmpPath filePath],
                     .ok (size, dig))
              else
                (tr3 ++ [.rename tmpPath filePath, .removeFile tmpPath],
                 .error (.io e))

/-- The metadata upsert
(`INSERT ... ON CONFLICT(bucket_id, key) DO UPDATE ... RETURNING ...`): a
conflicting row keeps its id and has every mutable field replaced with the
soft-delete flag cleared; otherwise a fresh row is appended.  Returns the
updated table and the returned row. -/
def upsertObject (db : DB) (bucketId : Nat) (key filename : ByteStr)
    (contentType : Option ByteStr) (size : Int) (etag : ByteStr)
    (newId now : Nat) : DB × ObjRow :=
  let newRow : ObjRow :=
    { id := newId, bucketId := bucketId, key := key, filename := filename,
      contentType := contentType, sizeBytes := size, etag := some etag,
      storageClass := strBytes "STANDARD", lastModified := now,
      versionId := none, isDeleted := false }
  match db.objects.find? (fun r => r.bucketId == bucketId && r.key == key) with
  | some old =>
    ({ db with objects := db.objects.map (fun r =>
        if r.bucketId == bucketId && r.key == key then
          { newRow with id := old.id }
        else r) },
     { newRow with id := old.id })
  | none => ({ db with objects := db.objects ++ [newRow] }, newRow)

/-- `StorageService::upload_object_stream`: validate the key, resolve the
bucket, install the payload (temp file, stream, flush, fsync, rename), then
upsert the metadata row; if the upsert fails after installation, unlink the
installed file (best-effort) and surface the database error.  Returns the
result, the resulting table, and the trace of filesystem operations. -/
def upload_object_stream (svc : Planner) (db : DB) (env : UploadEnv)
    (bucket key : ByteStr) (contentType : Option ByteStr)
    (stream : List (Except IoErr ByteStr)) :
    Except StorageError ObjRow × DB × List FsOp :=
  match ensure_key_safe key with
  | .error e => (.error e, db, [])
  | .ok _ =>
  match fetch_bucket_f db bucket env.fetchBucketFault with
  | .error e => (.error e, db, [])
  | .ok bucketRec =>
    match uploadInstallPhase svc env bucketRec.name key stream with
    | (tr, .error e) => (.error e, db, tr)
    | (tr, .ok (size, dig)) =>
      match env.upsertFault with
      | some e =>
        (.error (.sqlx e), db,
         tr ++ [.removeFile (object_path svc bucketRec.name key)])
      | none =>
        let ins := upsertObject db bucketRec.id key (lastSegment key)
          contentType size (svc.md5hex dig) env.newId env.now
        (.ok ins.2, ins.1, tr)

/-- Claim C7: whenever the metadata upsert fails after the payload has been
installed (any successful installation, the already-exists/retry route
included), the engine appends a best-effort unlink of the installed file to
the trace, surfaces the database error, and leaves the object table exactly
as it was. -/
theorem C7_upsert_failure_unlinks_and_surfaces (svc : Planner) (db : DB)
    (env : UploadEnv) (bucket key : ByteStr) (ct : Option ByteStr)
    (stream : List (Except IoErr ByteStr)) (brec : BucketRow)
    (tr : List FsOp) (size : Int) (dig : ByteStr) (e : SqlxErr)
    (hkey : ensure_key_safe key = .ok ())
    (hfb : fetch_bucket_f db bucket env.fetchBucketFault = .ok brec)
    (hinstall : uploadInstallPhase svc env brec.name key stream = (tr, .ok (size, dig)))
    (hup : env.upsertFault = some e) :
    upload_object_stream svc db env bucket key ct stream =
      (.error (.sqlx e), db,
       tr ++ [FsOp.removeFile (object_path svc brec.name key)]) := by
  unfold upload_object_stream
  rw [hkey]
  simp only []
  rw [hfb]
  simp only []
  rw [hinstall]
  simp only []
  rw [hup]

/-- Upload environment for the witnesses: no filesystem faults, upsert
fails with a database error. -/
def env7 : UploadEnv :=
  { tmpName := strBytes ".tmp-x", newId := 9, now := 5,
    createDirFault := none, createFault := none, writeFaults := [],
    flushFault := none, syncFault := none, renameFaults := [],
    removeFinalFault := none, upsertFault := some (SqlxErr.other 3),
    fetchBucketFault := none }

/-- A one-chunk body. -/
def streamW : List (Except IoErr ByteStr) := [.ok (strBytes "hi")]

/-- Witness for `C7_upsert_failure_unlinks_and_surfaces` on bucket `bkt`,
key `k`, body `hi`. -/
theorem C7_witness :
    upload_object_stream svc0 dbAx env7 (strBytes "bkt") (strBytes "k") none streamW =
      (.error (.sqlx (SqlxErr.other 3)), dbAx,
       (uploadInstallPhase svc0 env7 (strBytes "bkt") (strBytes "k") streamW).1 ++
         [FsOp.removeFile (object_path svc0 (strBytes "bkt") (strBytes "k"))]) :=
  C7_upsert_failure_unlinks_and_surfaces svc0 dbAx env7 (strBytes "bkt")
    (strBytes "k") none streamW bktRow _ 2 (strBytes "hi") (SqlxErr.other 3)
    rfl rfl rfl rfl

/-- Claim C10: when `upload_object_stream` fails key validation or bucket
resolution (invalid name, injected database error, or missing bucket), it
returns that error with an empty filesystem-operation trace and the object
table unchanged. -/
theorem C10_early_failure_no_effects (svc : Planner) (db : DB) (env : UploadEnv)
    (bucket key : ByteStr) (ct : Option ByteStr)
    (stream : List (Except IoErr ByteStr)) :
    (∀ e, ensure_key_safe key = .error e →
      upload_object_stream svc db env bucket key ct stream = (.error e, db, []))
    ∧ (∀ e, ensure_key_safe key = .ok () →
        fetch_bucket_f db bucket env.fetchBucketFault = .error e →
        upload_object_stream svc db env bucket key ct stream = (.error e, db, [])) := by
  constructor
  · intro e hk
    unfold upload_object_stream
    rw [hk]
  · intro e hk hfb
    unfold upload_object_stream
    rw [hk]
    simp only []
    rw [hfb]

/-- Witness for `C10_early_failure_no_effects`: the empty key is rejected
with no effects. -/
theorem C10_witness :
    upload_object_stream svc0 dbAx env7 (strBytes "bkt") [] none streamW =
      (.error .invalidObjectKey, dbAx, []) :=
  (C10_early_failure_no_effects svc0 dbAx env7 (strBytes "bkt") [] none streamW).1
    .invalidObjectKey rfl
